import Mathlib

/-!
FireMLT: the per-frame compositing pass and the driver loop of `main.cpp`.

A shallow embedding of `src/main.cpp`.

* The ArrayFire calls of the compositing pass (`array`, `reorder`, `scale`, `flip`,
  indexed assignment, `convolve2`, `host`) are embedded as functions on a small array
  model: three dimensions and an element function, column-major on the host side.
  `u8` elements are natural numbers, `f32` elements are rationals (exact arithmetic).
* The driver loop is embedded as a fold over the finite list of packets that
  `av_read_frame` delivers; each packet records what the decoder and the event queue
  answer while it is handled.
-/

namespace FireMLT

/-! ## The array model -/

/-- An ArrayFire array of three dimensions: `dims(0)`, `dims(1)`, `dims(2)` and the element
stored at each index triple. -/
structure array (α : Type) where
  d0 : Nat
  d1 : Nat
  d2 : Nat
  elem : Nat → Nat → Nat → α

namespace array

/-- The call `a.dims(i)`. -/
def dims (a : array α) (i : Nat) : Nat :=
  if i = 0 then a.d0 else if i = 1 then a.d1 else if i = 2 then a.d2 else 1

/-- The constructor `array a(d0, d1, d2, ptr)`: the host buffer is read in column-major order,
element `[i, j, k]` from offset `i + d0 * (j + d1 * k)`. -/
def ofHost (d0 d1 d2 : Nat) (ptr : List Nat) : array Nat :=
  ⟨d0, d1, d2, fun i j k => ptr.getD (i + d0 * (j + d1 * k)) 0⟩

/-- The call `a.host(ptr)`: the elements written out in column-major order. -/
def host (a : array α) : List α :=
  (List.range (a.d0 * a.d1 * a.d2)).map fun n =>
    a.elem (n % a.d0) (n / a.d0 % a.d1) (n / (a.d0 * a.d1))

/-- The conversion `a.as(f32)` of a `u8` array. -/
def as_f32 (a : array Nat) : array ℚ :=
  ⟨a.d0, a.d1, a.d2, fun i j k => (a.elem i j k : ℚ)⟩

/-- The read `a(span, span, c)`: one plane of the array. -/
def plane (a : array α) (c : Nat) : array α :=
  ⟨a.d0, a.d1, 1, fun i j _ => a.elem i j c⟩

/-- Elementwise `a + b`. -/
def add (a b : array ℚ) : array ℚ :=
  ⟨a.d0, a.d1, a.d2, fun i j k => a.elem i j k + b.elem i j k⟩

/-- Elementwise `a /= s`. -/
def divScalar (a : array ℚ) (s : ℚ) : array ℚ :=
  ⟨a.d0, a.d1, a.d2, fun i j k => a.elem i j k / s⟩

end array

/-- The call `reorder(a, x, y, z)`: dimension `x` of the input becomes dimension 0 of the
output, `y` becomes dimension 1 and `z` dimension 2. -/
def reorder (a : array α) (x y z : Nat) : array α :=
  { d0 := a.dims x
    d1 := a.dims y
    d2 := a.dims z
    elem := fun i0 i1 i2 =>
      let pick := fun (k : Nat) => if x = k then i0 else if y = k then i1 else i2
      a.elem (pick 0) (pick 1) (pick 2) }

/-- The call `flip(a, dim)`: the order of the elements along `dim` is reversed. -/
def flip (a : array α) (dim : Nat) : array α :=
  { a with
    elem := fun i j k =>
      a.elem (if dim = 0 then a.d0 - 1 - i else i) (if dim = 1 then a.d1 - 1 - j else j)
        (if dim = 2 then a.d2 - 1 - k else k) }

/-- What `scale` leaves to the array library, kept as a parameter: the source coordinates
read for each output coordinate (nearest-neighbour interpolation, the default of the call),
and the output size the library derives by itself from an input of dims `(d0, d1, _)` when
the caller gives no output size. -/
structure Interp where
  src0 : Nat → Nat
  src1 : Nat → Nat
  derived : Nat → Nat → Nat × Nat

/-- The sampling at twice the output coordinate, used for concrete evaluations. -/
def nearest : Interp := ⟨fun x => 2 * x, fun y => 2 * y, fun d0 d1 => (d0, d1)⟩

/-- The call `scale(a, scale0, scale1, odim0, odim1)`: an array whose elements are sampled
from `a`. Its dims are `(odim0, odim1, a.dims(2))` when both output dimensions are given; an
output dimension of 0 means that the size is not given, and the library derives it. The two
factors select the source coordinates, for which `I` stands. -/
def scale (I : Interp) (a : array α) (_scale0 _scale1 : ℚ) (odim0 odim1 : Nat) : array α :=
  { d0 := if odim0 = 0 ∨ odim1 = 0 then (I.derived a.d0 a.d1).1 else odim0
    d1 := if odim0 = 0 ∨ odim1 = 0 then (I.derived a.d0 a.d1).2 else odim1
    d2 := a.d2
    elem := fun i j k => a.elem (I.src0 i) (I.src1 j) k }

/-- An index of an indexing expression `a(i0, i1, i2)`: `seq(first, last)`, `span`, or a single
integer. -/
inductive index where
  | seq (first last : Int)
  | span
  | idx (i : Int)

/-- A bound of an index read against a dimension of size `d`: a negative bound counts from
the end of the dimension, `-1` (the value of `af::end`) being the last position. -/
def index.bound (d : Nat) (i : Int) : Int := if i < 0 then (d : Int) + i else i

/-- First position an index selects in a dimension of size `d`. -/
def index.first (s : index) (d : Nat) : Int :=
  match s with
  | .seq first _ => index.bound d first
  | .span => 0
  | .idx i => index.bound d i

/-- Last position an index selects in a dimension of size `d`. -/
def index.last (s : index) (d : Nat) : Int :=
  match s with
  | .seq _ last => index.bound d last
  | .span => (d : Int) - 1
  | .idx i => index.bound d i

/-- Position selected by an index in a dimension of size `d`: `sel s d k` is the position
inside the indexed view that position `k` of the dimension maps to, if `k` is selected. -/
def index.sel (s : index) (d : Nat) (k : Nat) : Option Nat :=
  if s.first d ≤ (k : Int) ∧ (k : Int) ≤ s.last d then some ((k : Int) - s.first d).toNat
  else none

/-- The assignment `a(s0, s1, s2) = rhs`: the selected elements take the elements of `rhs`,
every other element is kept. -/
def assign (a : array α) (s0 s1 s2 : index) (rhs : array α) : array α :=
  { a with
    elem := fun x y c =>
      match s0.sel a.d0 x, s1.sel a.d1 y, s2.sel a.d2 c with
      | some i, some j, some k => rhs.elem i j k
      | _, _, _ => a.elem x y c }

/-- The scalar assignment `a(s0, s1) = v`. -/
def assignScalar (a : array α) (s0 s1 : index) (v : α) : array α :=
  { a with
    elem := fun x y c =>
      match s0.sel a.d0 x, s1.sel a.d1 y with
      | some _, some _ => v
      | _, _ => a.elem x y c }

/-- The call `constant(v, d0, d1, f32)`. -/
def constant (v : ℚ) (d0 d1 : Nat) : array ℚ := ⟨d0, d1, 1, fun _ _ _ => v⟩

/-- The edge kernel: `constant(-1., 3, 3, f32)` followed by `conv_kernel(1, 1) = 8`. -/
def conv_kernel : array ℚ := assignScalar (constant (-1) 3 3) (.idx 1) (.idx 1) 8

/-- The signal of a convolution read at an integer position: zero outside the array. -/
def zeroPadded (a : array ℚ) (x y : Int) (c : Nat) : ℚ :=
  if 0 ≤ x ∧ x < (a.d0 : Int) ∧ 0 ≤ y ∧ y < (a.d1 : Int) then a.elem x.toNat y.toNat c else 0

/-- The call `convolve2(signal, filter)` in its default mode: the output has the size of the
signal, the filter is centred, and the signal counts as zero outside its bounds. -/
def convolve2 (signal filter : array ℚ) : array ℚ :=
  { signal with
    elem := fun x y c =>
      ∑ i in Finset.range filter.d0, ∑ j in Finset.range filter.d1,
        filter.elem i j 0 *
          zeroPadded signal ((x : Int) + (filter.d0 / 2 : Nat) - (i : Int))
            ((y : Int) + (filter.d1 / 2 : Nat) - (j : Int)) c }

/-- The conversion of an `f32` element to `u8` when it is stored into a `u8` array: truncation
toward zero. A value outside `0..255` is reduced modulo 256 here; the results below only convert
values inside the range. -/
def castU8 (q : ℚ) : Nat := ((if 0 ≤ q then ⌊q⌋ else ⌈q⌉) % 256).toNat

/-- The conversion of an `f32` array to the element type `u8` of the array it is assigned to. -/
def as_u8 (a : array ℚ) : array Nat :=
  ⟨a.d0, a.d1, a.d2, fun i j k => castU8 (a.elem i j k)⟩

/-! ## The compositing pass (`main`, the block run for each decoded frame) -/

/-- The conversion `(unsigned)(v)` of a floating-point value: truncation toward zero, kept in
32 bits. -/
def toUnsigned (q : ℚ) : Nat := (if 0 ≤ q then ⌊q⌋ else ⌈q⌉).toNat % 2 ^ 32

/-- The output dimension handed to `scale`: `(unsigned)(0.5 * w)`. -/
def scaledDim (w : Nat) : Nat := toUnsigned ((0.5 : ℚ) * (w : ℚ))

/-- The two index sequences of the write of the original version, for `small` of dims
`(d0, d1, _)`: `seq(0, small.dims(0) - 1), seq(0, small.dims(1) - 1)`. -/
def regionA (d0 d1 : Nat) : index × index :=
  (.seq 0 ((d0 : Int) - 1), .seq 0 ((d1 : Int) - 1))

/-- The two index sequences of the write of the flipped version: `x = small.dims(0)`, `y = 0`,
`seq(x, x + small.dims(0) - 1), seq(y, y + small.dims(1) - 1)`. -/
def regionB (d0 d1 : Nat) : index × index :=
  let x : Int := d0
  let y : Int := 0
  (.seq x (x + (d0 : Int) - 1), .seq y (y + (d1 : Int) - 1))

/-- The two index sequences of the writes of the edge image: `x = 0`, `y = small.dims(1)`,
`seq(x, x + small.dims(0) - 1), seq(y, y + small.dims(1) - 1)`. -/
def regionC (d0 d1 : Nat) : index × index :=
  let x : Int := 0
  let y : Int := d1
  (.seq x (x + (d0 : Int) - 1), .seq y (y + (d1 : Int) - 1))

/-- The frame as ArrayFire sees it after `reorder(frame, 1, 2, 0)`: dims `(w, h, 3)`. -/
def planar (w h : Nat) (data : List Nat) : array Nat :=
  reorder (array.ofHost 3 w h data) 1 2 0

/-- The downscaled image `small`. -/
def small (I : Interp) (w h : Nat) (data : List Nat) : array Nat :=
  scale I (planar w h data) 0.5 0.5 (scaledDim w) (scaledDim h)

/-- The greyscale plane before the convolution: the three planes of `small.as(f32)` added,
then divided by 3. -/
def greyscale (I : Interp) (w h : Nat) (data : List Nat) : array ℚ :=
  let smallf := (small I w h data).as_f32
  let grey := ((smallf.plane 0).add (smallf.plane 1)).add (smallf.plane 2)
  grey.divScalar 3

/-- The plane `grey` after `grey = convolve2(grey, conv_kernel)`. -/
def grey (I : Interp) (w h : Nat) (data : List Nat) : array ℚ :=
  convolve2 (greyscale I w h data) conv_kernel

/-- The frame after the writes of the pass, before it is reordered back. -/
def composite (I : Interp) (w h : Nat) (data : List Nat) : array Nat :=
  let frame := planar w h data
  let small := small I w h data
  -- original version
  let frame := assign frame (regionA (small.dims 0) (small.dims 1)).1
    (regionA (small.dims 0) (small.dims 1)).2 .span small
  -- flipped version
  let frame := assign frame (regionB (small.dims 0) (small.dims 1)).1
    (regionB (small.dims 0) (small.dims 1)).2 .span (flip small 0)
  -- edge detector
  let grey := as_u8 (grey I w h data)
  let frame := assign frame (regionC (small.dims 0) (small.dims 1)).1
    (regionC (small.dims 0) (small.dims 1)).2 (.idx 0) grey
  let frame := assign frame (regionC (small.dims 0) (small.dims 1)).1
    (regionC (small.dims 0) (small.dims 1)).2 (.idx 1) grey
  let frame := assign frame (regionC (small.dims 0) (small.dims 1)).1
    (regionC (small.dims 0) (small.dims 1)).2 (.idx 2) grey
  frame

/-- The compositing pass on the RGB buffer of a `w x h` frame: the buffer handed to the
texture after `reorder(frame, 2, 0, 1)` and `frame.host`. -/
def compositingPass (I : Interp) (w h : Nat) (data : List Nat) : List Nat :=
  (reorder (composite I w h data) 2 0 1).host

/-- Channel `c` of the pixel at column `x`, row `y` of an RGB24 buffer of width `w`. -/
def pixel (w : Nat) (buf : List Nat) (x y c : Nat) : Nat :=
  buf.getD (3 * (y * w + x) + c) 0

/-- Whether a pair of index sequences selects the pixel at column `x`, row `y` of a frame of
size `w x h`. -/
def covers (r : index × index) (w h x y : Nat) : Prop :=
  (r.1.sel w x).isSome = true ∧ (r.2.sel h y).isSome = true

/-- The RGB24 buffer of a `w x h` frame whose pixels all have the colour `(r, g, b)`. -/
def flatFrame (w h r g b : Nat) : List Nat :=
  (List.range (3 * w * h)).map fun n => if n % 3 = 0 then r else if n % 3 = 1 then g else b

/-- A `4 x 4` frame with 48 different bytes. -/
def sampleFrame : List Nat := List.range 48

/-- The value of `AVERROR(EAGAIN)`: the decoder needs more input. -/
def AVERROR_EAGAIN : Int := -11

/-- The value of `AVERROR_EOF`. -/
def AVERROR_EOF : Int := -541478725

/-- A packet delivered by `av_read_frame`, with the answers the program gets while it
handles the packet: what `avcodec_send_packet` and `avcodec_receive_frame` return for it and
whether the event polled afterwards is `SDL_QUIT`. -/
structure Packet where
  stream_index : Int
  send : Int
  receive : Int
  quit : Bool

/-- Whether the decoder produced a frame for the packet: the packet was accepted and
`avcodec_receive_frame` reported success. -/
def Packet.yieldsFrame (p : Packet) : Bool := decide (0 ≤ p.send ∧ 0 ≤ p.receive)

/-- The function `decode_packet`. The body of its `while (response >= 0)` loop leaves the
loop or the function in its first turn, so `avcodec_receive_frame` is called once. -/
def decode_packet (p : Packet) : Int :=
  let response := p.send
  if response < 0 then response
  else
    let response := p.receive
    if response = AVERROR_EAGAIN ∨ response = AVERROR_EOF then 0
    else if response < 0 then response
    else 0

/-- The variables of the streaming loop, with three counters that record what the loop did:
the display passes run, those run on a frame the decoder produced for the packet, and the
packets read. -/
structure Loop where
  response : Int
  how_many_packets_to_process : Int
  displayed : Nat
  shown : Nat
  seen : List Packet

/-- The state before the first `av_read_frame`. -/
def Loop.init : Loop := ⟨0, 800, 0, 0, []⟩

/-- One turn of `while (av_read_frame(pFormatContext, pPacket) >= 0)` on the packet read.
The boolean is false when the turn leaves the loop (`break` or `goto cleanup`). -/
def step (video_stream_index : Int) (s : Loop) (p : Packet) : Loop × Bool :=
  let s := { s with seen := s.seen ++ [p] }
  if p.stream_index = video_stream_index then
    let s := { s with response := decode_packet p }
    let s :=
      if s.response = 0 then
        { s with displayed := s.displayed + 1
                 shown := s.shown + (if p.yieldsFrame then 1 else 0) }
      else s
    if s.response < 0 then (s, false)
    else
      let s := { s with how_many_packets_to_process := s.how_many_packets_to_process - 1 }
      if s.how_many_packets_to_process ≤ 0 then (s, false)
      else if p.quit then (s, false)
      else (s, true)
  else (s, true)

/-- The streaming loop over the packets the container delivers. -/
def streaming (video_stream_index : Int) : Loop → List Packet → Loop
  | s, [] => s
  | s, p :: ps =>
      if (step video_stream_index s p).2 then
        streaming video_stream_index (step video_stream_index s p).1 ps
      else (step video_stream_index s p).1

/-- A stream of the container as the setup loop looks at it. -/
structure Stream where
  decoder_found : Bool
  is_video : Bool

/-- How a part of `main` ends: it goes on with a value, it leaves `main` with `return -1`, or
it dereferences a NULL pointer and the process does not return from `main`. -/
inductive Ended (α : Type) where
  | ok (a : α)
  | failed
  | crashed

/-- The loop over the streams, from stream `i` on, with the values of `video_stream_index`
and whether `pCodecParameters` is set. A stream without decoder ends `main` with `return -1`;
a video stream sets both variables; the logging at the end of each turn reads
`pCodecParameters->bit_rate`, a NULL dereference while no video stream has been met. -/
def findVideoStream : List Stream → Int → Int × Bool → Ended (Int × Bool)
  | [], _, vars => .ok vars
  | s :: ss, i, vars =>
      if !s.decoder_found then .failed
      else
        let vars := if s.is_video then (i, true) else vars
        if !vars.2 then .crashed
        else findVideoStream ss (i + 1) vars

/-- What a run of the program meets: the outcome of each checked setup call, the size of the
video frames and the packets of the container. The calls `main` does not check
(`sws_getCachedContext`, the second `av_frame_alloc`, `av_malloc`, the `SDL_Create` calls)
are taken to succeed. -/
structure Input where
  format_context : Bool
  open_input : Int
  find_stream_info : Int
  streams : List Stream
  codec_context : Bool
  parameters_to_context : Int
  open2 : Int
  frame : Bool
  packet : Bool
  width : Nat
  height : Nat
  packets : List Packet

/-- The part of `main` before the streaming loop. With no stream at all `pCodecParameters`
is still NULL when it is handed to `avcodec_parameters_to_context`, which reads it. -/
def setupEnd (inp : Input) : Ended Int :=
  if !inp.format_context then .failed
  else if inp.open_input ≠ 0 then .failed
  else if inp.find_stream_info < 0 then .failed
  else
    match findVideoStream inp.streams 0 (-1, false) with
    | .failed => .failed
    | .crashed => .crashed
    | .ok (video_stream_index, pCodecParameters) =>
        if !inp.codec_context then .failed
        else if !pCodecParameters then .crashed
        else if inp.parameters_to_context < 0 then .failed
        else if inp.open2 < 0 then .failed
        else if !inp.frame then .failed
        else if !inp.packet then .failed
        else .ok video_stream_index

/-- The index of the video stream when `main` reaches the streaming loop, `none` when it
does not reach it. -/
def setup (inp : Input) : Option Int :=
  match setupEnd inp with
  | .ok video_stream_index => some video_stream_index
  | .failed => none
  | .crashed => none

/-- Whether the frames are at least 2 pixels wide and high. On a smaller frame the display
pass hands an output size of 0 to `scale` and `seq(0, -1)` to the indexing. -/
def Input.displayable (inp : Input) : Bool := decide (2 ≤ inp.width ∧ 2 ≤ inp.height)

/-- The state of the streaming loop when `main` reaches `cleanup`: `none` when the loop is
not reached, and also when a display pass has run on frames that are not displayable (such
a run is not followed further). -/
def run (inp : Input) : Option Loop :=
  match setup inp with
  | none => none
  | some video_stream_index =>
      let s := streaming video_stream_index Loop.init inp.packets
      if 0 < s.displayed ∧ inp.displayable = false then none else some s

/-- The value `main` returns: `-1` from a failed setup check, `0` after `cleanup`, and `none`
when the run does not return from `main`. -/
def main (inp : Input) : Option Int :=
  match setupEnd inp with
  | .failed => some (-1)
  | .crashed => none
  | .ok _ => (run inp).map fun _ => 0

/-- Video packets of a list for which `decode_packet` returns 0. -/
def okVideo (video_stream_index : Int) (ps : List Packet) : List Packet :=
  ps.filter fun p => decide (p.stream_index = video_stream_index ∧ decode_packet p = 0)

/-- Video packets of a list. -/
def videoPackets (video_stream_index : Int) (ps : List Packet) : List Packet :=
  ps.filter fun p => decide (p.stream_index = video_stream_index)

/-- Number of video frames the decoder produces for the packets of a list. -/
def frame_count (video_stream_index : Int) (ps : List Packet) : Nat :=
  ((videoPackets video_stream_index ps).filter Packet.yieldsFrame).length

/-- The relation between the counter, the counters of display passes and the packets read. -/
def Loop.Inv (v : Int) (s : Loop) : Prop :=
  800 - s.how_many_packets_to_process = ((okVideo v s.seen).length : Int) ∧
    s.displayed = (okVideo v s.seen).length ∧
    s.shown = ((okVideo v s.seen).filter Packet.yieldsFrame).length

/-- A run with every setup call succeeding, one video stream (index 0), frames of size
`64 x 64` and the given packets. -/
def goodInput (packets : List Packet) : Input :=
  { format_context := true
    open_input := 0
    find_stream_info := 0
    streams := [⟨true, true⟩]
    codec_context := true
    parameters_to_context := 0
    open2 := 0
    frame := true
    packet := true
    width := 64
    height := 64
    packets := packets }

/-- A video packet the decoder rejects: `avcodec_send_packet` returns `AVERROR_INVALIDDATA`. -/
def invalidPacket : Packet := ⟨0, -1094995529, 0, false⟩

/-- A video packet the decoder accepts without producing a frame: `avcodec_receive_frame`
returns `AVERROR(EAGAIN)`. -/
def againPacket : Packet := ⟨0, 0, AVERROR_EAGAIN, false⟩

/-- A video packet for which the decoder produces a frame. -/
def framePacket : Packet := ⟨0, 0, 0, false⟩

/-- A packet of another stream (audio). -/
def audioPacket : Packet := ⟨1, 0, 0, false⟩

/-! ## Lemmas on the array model -/

theorem array.host_length (a : array α) : a.host.length = a.d0 * a.d1 * a.d2 := by
  simp [array.host]

theorem array.host_getD (a : array Nat) (i j k : Nat) (hi : i < a.d0) (hj : j < a.d1)
    (hk : k < a.d2) : a.host.getD (i + a.d0 * (j + a.d1 * k)) 0 = a.elem i j k := by
  have h0 : 0 < a.d0 := by omega
  have h1 : 0 < a.d1 := by omega
  have hjk : j + a.d1 * k < a.d1 * a.d2 := by
    calc j + a.d1 * k < a.d1 + a.d1 * k := by omega
      _ = a.d1 * (k + 1) := by ring
      _ ≤ a.d1 * a.d2 := Nat.mul_le_mul_left _ hk
  have hn : i + a.d0 * (j + a.d1 * k) < a.d0 * a.d1 * a.d2 := by
    calc i + a.d0 * (j + a.d1 * k) < a.d0 + a.d0 * (j + a.d1 * k) := by omega
      _ = a.d0 * (j + a.d1 * k + 1) := by ring
      _ ≤ a.d0 * (a.d1 * a.d2) := Nat.mul_le_mul_left _ hjk
      _ = a.d0 * a.d1 * a.d2 := by ring
  have e1 : (i + a.d0 * (j + a.d1 * k)) % a.d0 = i := by
    rw [Nat.add_mul_mod_self_left, Nat.mod_eq_of_lt hi]
  have e2 : (i + a.d0 * (j + a.d1 * k)) / a.d0 = j + a.d1 * k := by
    rw [Nat.add_mul_div_left _ _ h0, Nat.div_eq_of_lt hi, Nat.zero_add]
  have e3 : (j + a.d1 * k) % a.d1 = j := by
    rw [Nat.add_mul_mod_self_left, Nat.mod_eq_of_lt hj]
  have e4 : (i + a.d0 * (j + a.d1 * k)) / (a.d0 * a.d1) = k := by
    rw [← Nat.div_div_eq_div_mul, e2, Nat.add_mul_div_left _ _ h1, Nat.div_eq_of_lt hj,
      Nat.zero_add]
  rw [List.getD_eq_getElem _ _ (by rw [array.host_length]; exact hn)]
  simp only [array.host, List.getElem_map, List.getElem_range, e1, e2, e3, e4]

theorem host_ofHost (d0 d1 d2 : Nat) (data : List Nat) (hlen : data.length = d0 * d1 * d2) :
    (array.ofHost d0 d1 d2 data).host = data := by
  apply List.ext_getElem
  · rw [array.host_length, hlen]; rfl
  · intro n h1 h2
    simp only [array.host, array.ofHost, List.getElem_map, List.getElem_range]
    have e : n % d0 + d0 * (n / d0 % d1 + d1 * (n / (d0 * d1))) = n := by
      rw [← Nat.div_div_eq_div_mul, Nat.mod_add_div, Nat.mod_add_div]
    rw [e, List.getD_eq_getElem _ _ h2]

/-- A pixel of the buffer produced from a planar array of dims `(w, h, 3)`. -/
theorem pixel_host_reorder (p : array Nat) (w h : Nat) (h0 : p.d0 = w) (h1 : p.d1 = h)
    (h2 : p.d2 = 3) (x y c : Nat) (hx : x < w) (hy : y < h) (hc : c < 3) :
    pixel w (reorder p 2 0 1).host x y c = p.elem x y c := by
  have key := array.host_getD (reorder p 2 0 1) c x y
    (by simp [reorder, array.dims, h2, hc]) (by simp [reorder, array.dims, h0, hx])
    (by simp [reorder, array.dims, h1, hy])
  have e : 3 * (y * w + x) + c = c + (reorder p 2 0 1).d0 * (x + (reorder p 2 0 1).d1 * y) := by
    simp [reorder, array.dims, h2, h0]; ring
  rw [pixel, e, key]
  simp [reorder]

/-! ## Lemmas on the pass -/

theorem scaledDim_eq (w : Nat) : scaledDim w = (w / 2) % 2 ^ 32 := by
  have h0 : (0 : ℚ) ≤ 0.5 * (w : ℚ) := by positivity
  have e : (0.5 : ℚ) * (w : ℚ) = (w : ℚ) / ((2 : ℕ) : ℚ) := by push_cast; ring
  unfold scaledDim toUnsigned
  rw [if_pos h0, e, Rat.floor_natCast_div_natCast]
  norm_cast

theorem scaledDim_le (w : Nat) : 2 * scaledDim w ≤ w := by
  rw [scaledDim_eq]
  have := Nat.mod_le (w / 2) (2 ^ 32)
  omega

theorem composite_dims (I : Interp) (w h : Nat) (data : List Nat) :
    (composite I w h data).d0 = w ∧ (composite I w h data).d1 = h ∧
      (composite I w h data).d2 = 3 := by
  simp [composite, assign, planar, reorder, array.dims, array.ofHost]

theorem pixel_compositingPass (I : Interp) (w h : Nat) (data : List Nat) (x y c : Nat)
    (hx : x < w) (hy : y < h) (hc : c < 3) :
    pixel w (compositingPass I w h data) x y c = (composite I w h data).elem x y c := by
  obtain ⟨h0, h1, h2⟩ := composite_dims I w h data
  exact pixel_host_reorder _ w h h0 h1 h2 x y c hx hy hc

theorem planar_elem (w h : Nat) (data : List Nat) (x y c : Nat) :
    (planar w h data).elem x y c = pixel w data x y c := by
  have e : c + 3 * (x + w * y) = 3 * (y * w + x) + c := by ring
  simp [planar, reorder, array.ofHost, pixel, e]

theorem sel_seq (first last : Int) (d k : Nat) (h0 : 0 ≤ first) (h1 : 0 ≤ last) :
    (index.seq first last).sel d k =
      if first ≤ (k : Int) ∧ (k : Int) ≤ last then some ((k : Int) - first).toNat else none := by
  simp only [index.sel, index.first, index.last, index.bound, if_neg (not_lt.2 h0),
    if_neg (not_lt.2 h1)]

theorem sel_seq_in (first last : Int) (d k : Nat) (h0 : 0 ≤ first)
    (h : first ≤ (k : Int) ∧ (k : Int) ≤ last) :
    (index.seq first last).sel d k = some ((k : Int) - first).toNat := by
  rw [sel_seq first last d k h0 (by omega), if_pos h]

theorem sel_seq_out (first last : Int) (d k : Nat) (h0 : 0 ≤ first) (h1 : 0 ≤ last)
    (h : ¬ (first ≤ (k : Int) ∧ (k : Int) ≤ last)) : (index.seq first last).sel d k = none := by
  rw [sel_seq first last d k h0 h1, if_neg h]

theorem sel_span (d k : Nat) (hk : k < d) : index.span.sel d k = some k := by
  simp only [index.sel, index.first, index.last]
  rw [if_pos (by omega)]
  simp

theorem sel_idx (i d k : Nat) :
    (index.idx (i : Int)).sel d k = if k = i then some 0 else none := by
  have hb : index.bound d (i : Int) = (i : Int) := by
    unfold index.bound
    rw [if_neg (by omega)]
  simp only [index.sel, index.first, index.last, hb]
  by_cases hk : k = i
  · rw [if_pos (by omega), if_pos hk, hk]
    simp
  · rw [if_neg (by omega), if_neg hk]

theorem assign_elem_in (a rhs : array α) (s0 s1 s2 : index) (x y c i j k d0 d1 d2 : Nat)
    (h0 : s0.sel d0 x = some i) (h1 : s1.sel d1 y = some j) (h2 : s2.sel d2 c = some k)
    (hd0 : a.d0 = d0) (hd1 : a.d1 = d1) (hd2 : a.d2 = d2) :
    (assign a s0 s1 s2 rhs).elem x y c = rhs.elem i j k := by
  simp [assign, hd0, hd1, hd2, h0, h1, h2]

theorem assign_elem_out0 (a rhs : array α) (s0 s1 s2 : index) (x y c d0 : Nat)
    (h0 : s0.sel d0 x = none) (hd0 : a.d0 = d0) :
    (assign a s0 s1 s2 rhs).elem x y c = a.elem x y c := by
  simp [assign, hd0, h0]

theorem assign_elem_out1 (a rhs : array α) (s0 s1 s2 : index) (x y c d1 : Nat)
    (h1 : s1.sel d1 y = none) (hd1 : a.d1 = d1) :
    (assign a s0 s1 s2 rhs).elem x y c = a.elem x y c := by
  simp only [assign, hd1, h1]
  split <;> simp_all

theorem assign_elem_out2 (a rhs : array α) (s0 s1 s2 : index) (x y c d2 : Nat)
    (h2 : s2.sel d2 c = none) (hd2 : a.d2 = d2) :
    (assign a s0 s1 s2 rhs).elem x y c = a.elem x y c := by
  simp only [assign, hd2, h2]
  split <;> simp_all

/-- With both output dimensions given, `small` has the dims handed to `scale`. -/
theorem small_dims (I : Interp) (w h : Nat) (data : List Nat) (hsw : 0 < scaledDim w)
    (hsh : 0 < scaledDim h) :
    (small I w h data).dims 0 = scaledDim w ∧ (small I w h data).dims 1 = scaledDim h := by
  have hn : ¬ (scaledDim w = 0 ∨ scaledDim h = 0) := by omega
  simp [small, scale, array.dims, hn]

theorem scaledDim_pos (w : Nat) (h2 : 2 ≤ w) (hmax : w < 2 ^ 31) : 0 < scaledDim w := by
  rw [scaledDim_eq, Nat.mod_eq_of_lt (by omega)]
  omega

theorem composite_elem_A (I : Interp) (w h : Nat) (data : List Nat) (x y c : Nat)
    (hx : x < scaledDim w) (hy : y < scaledDim h) (hc : c < 3) :
    (composite I w h data).elem x y c = (small I w h data).elem x y c := by
  obtain ⟨hsx, hsy⟩ := small_dims I w h data (by omega) (by omega)
  have hC : (regionC (scaledDim w) (scaledDim h)).2.sel h y = none :=
    sel_seq_out _ _ _ _ (by show (0 : Int) ≤ _; omega) (by show (0 : Int) ≤ _; omega)
      (by show ¬ (_ ∧ _); omega)
  have hB : (regionB (scaledDim w) (scaledDim h)).1.sel w x = none :=
    sel_seq_out _ _ _ _ (by show (0 : Int) ≤ _; omega) (by show (0 : Int) ≤ _; omega)
      (by show ¬ (_ ∧ _); omega)
  have hA0 : (regionA (scaledDim w) (scaledDim h)).1.sel w x = some x := by
    rw [regionA, sel_seq_in _ _ _ _ (by omega) (by omega)]; simp
  have hA1 : (regionA (scaledDim w) (scaledDim h)).2.sel h y = some y := by
    rw [regionA, sel_seq_in _ _ _ _ (by omega) (by omega)]; simp
  simp only [composite, hsx, hsy]
  rw [assign_elem_out1 _ _ _ _ _ _ _ _ h hC, assign_elem_out1 _ _ _ _ _ _ _ _ h hC,
    assign_elem_out1 _ _ _ _ _ _ _ _ h hC, assign_elem_out0 _ _ _ _ _ _ _ _ w hB,
    assign_elem_in _ _ _ _ .span _ _ c _ _ c w h 3 hA0 hA1 (sel_span 3 c hc)]
  all_goals rfl

theorem composite_elem_B (I : Interp) (w h : Nat) (data : List Nat) (x y c : Nat)
    (hx : x < scaledDim w) (hy : y < scaledDim h) (hc : c < 3) :
    (composite I w h data).elem (scaledDim w + x) y c =
      (small I w h data).elem (scaledDim w - 1 - x) y c := by
  obtain ⟨hsx, hsy⟩ := small_dims I w h data (by omega) (by omega)
  have hC : (regionC (scaledDim w) (scaledDim h)).2.sel h y = none :=
    sel_seq_out _ _ _ _ (by show (0 : Int) ≤ _; omega) (by show (0 : Int) ≤ _; omega)
      (by show ¬ (_ ∧ _); omega)
  have hB0 : (regionB (scaledDim w) (scaledDim h)).1.sel w (scaledDim w + x) = some x := by
    rw [regionB, sel_seq_in _ _ _ _ (by omega) (by push_cast; omega)]; simp
  have hB1 : (regionB (scaledDim w) (scaledDim h)).2.sel h y = some y := by
    rw [regionB, sel_seq_in _ _ _ _ (by omega) (by omega)]; simp
  have e : (composite I w h data).elem (scaledDim w + x) y c =
      (flip (small I w h data) 0).elem x y c := by
    simp only [composite, hsx, hsy]
    rw [assign_elem_out1 _ _ _ _ _ _ _ _ h hC, assign_elem_out1 _ _ _ _ _ _ _ _ h hC,
      assign_elem_out1 _ _ _ _ _ _ _ _ h hC,
      assign_elem_in _ _ _ _ .span _ _ c _ _ c w h 3 hB0 hB1 (sel_span 3 c hc)]
    all_goals rfl
  have hd : (small I w h data).d0 = scaledDim w := by simpa [array.dims] using hsx
  rw [e]
  simp [flip, hd]

theorem composite_elem_C (I : Interp) (w h : Nat) (data : List Nat) (x y c : Nat)
    (hx : x < scaledDim w) (hy : y < scaledDim h) (hc : c < 3) :
    (composite I w h data).elem x (scaledDim h + y) c = castU8 ((grey I w h data).elem x y 0) := by
  obtain ⟨hsx, hsy⟩ := small_dims I w h data (by omega) (by omega)
  have hC0 : (regionC (scaledDim w) (scaledDim h)).1.sel w x = some x := by
    rw [regionC, sel_seq_in _ _ _ _ (by omega) (by omega)]; simp
  have hC1 : (regionC (scaledDim w) (scaledDim h)).2.sel h (scaledDim h + y) = some y := by
    rw [regionC, sel_seq_in _ _ _ _ (by omega) (by push_cast; omega)]; simp
  have i0 : ∀ k : Nat, k ≠ 0 → (index.idx 0).sel 3 k = none := by
    intro k hk
    have := sel_idx 0 3 k
    rw [if_neg hk] at this
    exact this
  have i1 : ∀ k : Nat, k ≠ 1 → (index.idx 1).sel 3 k = none := by
    intro k hk
    have := sel_idx 1 3 k
    rw [if_neg hk] at this
    exact this
  have i2 : ∀ k : Nat, k ≠ 2 → (index.idx 2).sel 3 k = none := by
    intro k hk
    have := sel_idx 2 3 k
    rw [if_neg hk] at this
    exact this
  have j0 : (index.idx 0).sel 3 0 = some 0 := sel_idx 0 3 0
  have j1 : (index.idx 1).sel 3 1 = some 0 := sel_idx 1 3 1
  have j2 : (index.idx 2).sel 3 2 = some 0 := sel_idx 2 3 2
  have e : ∀ v : Nat, (as_u8 (grey I w h data)).elem x y v = castU8 ((grey I w h data).elem x y v) :=
    fun _ => rfl
  rw [← e 0]
  simp only [composite, hsx, hsy]
  have h3 : c = 0 ∨ c = 1 ∨ c = 2 := by omega
  rcases h3 with rfl | rfl | rfl
  · rw [assign_elem_out2 _ _ _ _ _ _ _ _ 3 (i2 0 (by decide)),
      assign_elem_out2 _ _ _ _ _ _ _ _ 3 (i1 0 (by decide)),
      assign_elem_in _ _ _ _ _ _ _ _ _ _ 0 w h 3 hC0 hC1 j0]
    all_goals rfl
  · rw [assign_elem_out2 _ _ _ _ _ _ _ _ 3 (i2 1 (by decide)),
      assign_elem_in _ _ _ _ _ _ _ _ _ _ 0 w h 3 hC0 hC1 j1]
    all_goals rfl
  · rw [assign_elem_in _ _ _ _ _ _ _ _ _ _ 0 w h 3 hC0 hC1 j2]
    all_goals rfl

/-- Outside the three regions the frame keeps the element it was built with. -/
theorem composite_elem_outside (I : Interp) (w h : Nat) (data : List Nat) (x y c : Nat)
    (hsw : 0 < scaledDim w) (hsh : 0 < scaledDim h)
    (hout : (scaledDim w ≤ x ∧ scaledDim h ≤ y) ∨ 2 * scaledDim w ≤ x ∨ 2 * scaledDim h ≤ y) :
    (composite I w h data).elem x y c = (planar w h data).elem x y c := by
  obtain ⟨hsx, hsy⟩ := small_dims I w h data hsw hsh
  simp only [composite, hsx, hsy]
  have hC : (regionC (scaledDim w) (scaledDim h)).1.sel w x = none ∨
      (regionC (scaledDim w) (scaledDim h)).2.sel h y = none := by
    by_cases hx : scaledDim w ≤ x
    · exact Or.inl (sel_seq_out _ _ _ _ (by show (0 : Int) ≤ _; omega)
        (by show (0 : Int) ≤ _; omega) (by show ¬ (_ ∧ _); omega))
    · exact Or.inr (sel_seq_out _ _ _ _ (by show (0 : Int) ≤ _; omega)
        (by show (0 : Int) ≤ _; omega) (by show ¬ (_ ∧ _); omega))
  have hB : (regionB (scaledDim w) (scaledDim h)).1.sel w x = none ∨
      (regionB (scaledDim w) (scaledDim h)).2.sel h y = none := by
    by_cases hy : scaledDim h ≤ y
    · exact Or.inr (sel_seq_out _ _ _ _ (by show (0 : Int) ≤ _; omega)
        (by show (0 : Int) ≤ _; omega) (by show ¬ (_ ∧ _); omega))
    · exact Or.inl (sel_seq_out _ _ _ _ (by show (0 : Int) ≤ _; omega)
        (by show (0 : Int) ≤ _; omega) (by show ¬ (_ ∧ _); omega))
  have hA : (regionA (scaledDim w) (scaledDim h)).1.sel w x = none ∨
      (regionA (scaledDim w) (scaledDim h)).2.sel h y = none := by
    by_cases hx : scaledDim w ≤ x
    · exact Or.inl (sel_seq_out _ _ _ _ (by show (0 : Int) ≤ _; omega)
        (by show (0 : Int) ≤ _; omega) (by show ¬ (_ ∧ _); omega))
    · exact Or.inr (sel_seq_out _ _ _ _ (by show (0 : Int) ≤ _; omega)
        (by show (0 : Int) ≤ _; omega) (by show ¬ (_ ∧ _); omega))
  have step : ∀ (a rhs : array Nat) (s0 s1 s2 : index), a.d0 = w → a.d1 = h →
      (s0.sel w x = none ∨ s1.sel h y = none) →
      (assign a s0 s1 s2 rhs).elem x y c = a.elem x y c := by
    intro a rhs s0 s1 s2 hd0 hd1 hs
    rcases hs with hs | hs
    · exact assign_elem_out0 _ _ _ _ _ _ _ _ w hs hd0
    · exact assign_elem_out1 _ _ _ _ _ _ _ _ h hs hd1
  rw [step _ _ _ _ _ rfl rfl hC, step _ _ _ _ _ rfl rfl hC, step _ _ _ _ _ rfl rfl hC,
    step _ _ _ _ _ rfl rfl hB, step _ _ _ _ _ rfl rfl hA]

/-! ## Lemmas on the driver -/

theorem decode_packet_nonpos (p : Packet) : decode_packet p ≤ 0 := by
  unfold decode_packet
  simp only []
  split_ifs <;> omega

theorem decode_packet_of_yieldsFrame (p : Packet) (h : p.yieldsFrame = true) :
    decode_packet p = 0 := by
  simp only [Packet.yieldsFrame, decide_eq_true_eq] at h
  unfold decode_packet
  simp only []
  split_ifs <;> omega

/-- What one turn does to the counter. -/
theorem step_counter (v : Int) (s : Loop) (p : Packet) :
    (step v s p).1.how_many_packets_to_process =
      if p.stream_index = v ∧ decode_packet p = 0 then s.how_many_packets_to_process - 1
      else s.how_many_packets_to_process := by
  have hn := decode_packet_nonpos p
  unfold step
  simp only []
  by_cases hv : p.stream_index = v
  · by_cases h0 : decode_packet p = 0
    · simp only [hv, h0, if_true, and_self]
      split_ifs <;> simp_all
    · have hneg : decode_packet p < 0 := by omega
      simp [hv, h0, hneg]
  · simp [hv]

theorem step_seen (v : Int) (s : Loop) (p : Packet) : (step v s p).1.seen = s.seen ++ [p] := by
  unfold step
  simp only []
  split_ifs <;> rfl

theorem step_displayed (v : Int) (s : Loop) (p : Packet) :
    (step v s p).1.displayed =
      if p.stream_index = v ∧ decode_packet p = 0 then s.displayed + 1 else s.displayed := by
  unfold step
  simp only []
  split_ifs <;> simp_all

theorem step_shown (v : Int) (s : Loop) (p : Packet) :
    (step v s p).1.shown =
      if p.stream_index = v ∧ decode_packet p = 0 ∧ p.yieldsFrame = true then s.shown + 1
      else s.shown := by
  unfold step
  simp only []
  split_ifs <;> simp_all

/-- When one turn goes on to the next packet. -/
theorem step_continue (v : Int) (s : Loop) (p : Packet) :
    (step v s p).2 = true ↔
      (p.stream_index ≠ v ∨
        (decode_packet p = 0 ∧ 0 < s.how_many_packets_to_process - 1 ∧ p.quit = false)) := by
  have hn := decode_packet_nonpos p
  unfold step
  simp only []
  by_cases hv : p.stream_index = v
  · by_cases h0 : decode_packet p = 0
    · by_cases hb : s.how_many_packets_to_process - 1 ≤ 0
      · have hb2 : ¬ (0 < s.how_many_packets_to_process - 1) := by omega
        simp [hv, h0, hb, hb2]
      · have hb2 : 0 < s.how_many_packets_to_process - 1 := by omega
        cases hq : p.quit <;> simp [hv, h0, hb, hb2, hq]
    · have hneg : decode_packet p < 0 := by omega
      simp [hv, h0, hneg]
  · simp [hv]

theorem inv_init (v : Int) : Loop.Inv v Loop.init := by
  simp [Loop.Inv, Loop.init, okVideo]

theorem okVideo_snoc (v : Int) (l : List Packet) (p : Packet) :
    okVideo v (l ++ [p]) =
      if p.stream_index = v ∧ decode_packet p = 0 then okVideo v l ++ [p] else okVideo v l := by
  unfold okVideo
  rw [List.filter_append]
  by_cases h : p.stream_index = v ∧ decode_packet p = 0
  · rw [if_pos h, List.filter_cons_of_pos (by simpa using h), List.filter_nil]
  · rw [if_neg h, List.filter_cons_of_neg (by simpa using h), List.filter_nil, List.append_nil]

theorem inv_step (v : Int) (s : Loop) (p : Packet) (hs : Loop.Inv v s) :
    Loop.Inv v (step v s p).1 := by
  obtain ⟨h1, h2, h3⟩ := hs
  unfold Loop.Inv
  rw [step_counter, step_displayed, step_shown, step_seen, okVideo_snoc]
  by_cases hv : p.stream_index = v ∧ decode_packet p = 0
  · rw [if_pos hv, if_pos hv, if_pos hv, List.filter_append, List.length_append,
      List.length_append]
    cases hy : p.yieldsFrame
    · rw [if_neg (by simp), List.filter_cons_of_neg (by simp [hy])]
      refine ⟨?_, ?_, ?_⟩
      · push_cast; simp only [List.length_singleton]; omega
      · simp only [List.length_singleton]; omega
      · simpa using h3
    · rw [if_pos ⟨hv.1, hv.2, rfl⟩, List.filter_cons_of_pos (by simp [hy])]
      refine ⟨?_, ?_, ?_⟩
      · push_cast; simp only [List.length_singleton]; omega
      · simp only [List.length_singleton]; omega
      · simp only [List.filter_nil, List.length_singleton]; omega
  · have hv2 : ¬ (p.stream_index = v ∧ decode_packet p = 0 ∧ p.yieldsFrame = true) := by
      intro h
      exact hv ⟨h.1, h.2.1⟩
    rw [if_neg hv, if_neg hv, if_neg hv, if_neg hv2]
    exact ⟨h1, h2, h3⟩

theorem inv_streaming (v : Int) (ps : List Packet) :
    ∀ s : Loop, Loop.Inv v s → Loop.Inv v (streaming v s ps) := by
  induction ps with
  | nil => intro s hs; exact hs
  | cons p ps ih =>
      intro s hs
      unfold streaming
      split_ifs
      · exact ih _ (inv_step v s p hs)
      · exact inv_step v s p hs

theorem seen_streaming (v : Int) (ps : List Packet) :
    ∀ s : Loop, ∀ q ∈ (streaming v s ps).seen, q ∈ s.seen ∨ q ∈ ps := by
  induction ps with
  | nil => intro s q hq; exact Or.inl hq
  | cons p ps ih =>
      intro s q hq
      unfold streaming at hq
      split_ifs at hq
      · rcases ih _ q hq with h | h
        · rw [step_seen] at h
          rcases List.mem_append.1 h with h | h
          · exact Or.inl h
          · exact Or.inr (by simp at h; simp [h])
        · exact Or.inr (List.mem_cons_of_mem _ h)
      · rw [step_seen] at hq
        rcases List.mem_append.1 hq with h | h
        · exact Or.inl h
        · exact Or.inr (by simp at h; simp [h])

/-- With no decode error and no quit signal the loop uses up the budget one video packet at
a time. -/
theorem budget_streaming (v : Int) (ps : List Packet) :
    ∀ (s : Loop) (n : Nat), s.how_many_packets_to_process = (n : Int) → 0 < n →
      (∀ p ∈ ps, p.stream_index = v → decode_packet p = 0 ∧ p.quit = false) →
      (streaming v s ps).how_many_packets_to_process =
        (n : Int) - (min n (videoPackets v ps).length : Nat) := by
  induction ps with
  | nil => intro s n hn _ _; simp [streaming, videoPackets, hn]
  | cons p ps ih =>
      intro s n hn hpos hall
      have hp := hall p (List.mem_cons_self _ _)
      have hrest : ∀ q ∈ ps, q.stream_index = v → decode_packet q = 0 ∧ q.quit = false :=
        fun q hq => hall q (List.mem_cons_of_mem _ hq)
      unfold streaming
      by_cases hv : p.stream_index = v
      · obtain ⟨h0, hq⟩ := hp hv
        have hc : (step v s p).1.how_many_packets_to_process = (n : Int) - 1 := by
          rw [step_counter, if_pos ⟨hv, h0⟩, hn]
        have hlen : (videoPackets v (p :: ps)).length = (videoPackets v ps).length + 1 := by
          simp [videoPackets, List.filter_cons, hv]
        by_cases h1 : n = 1
        · have hstop : ¬ ((step v s p).2 = true) := by
            rw [step_continue]
            rintro (h | h)
            · exact h hv
            · omega
          rw [if_neg hstop, hc, hlen, h1]
          simp
        · have hgo : (step v s p).2 = true := by
            rw [step_continue]
            exact Or.inr ⟨h0, by omega, hq⟩
          rw [if_pos hgo, ih _ (n - 1) (by rw [hc]; omega) (by omega) hrest, hlen]
          omega
      · have hgo : (step v s p).2 = true := by
          rw [step_continue]
          exact Or.inl hv
        have hc : (step v s p).1.how_many_packets_to_process = (n : Int) := by
          rw [step_counter, if_neg (fun h => hv h.1), hn]
        have hlen : (videoPackets v (p :: ps)).length = (videoPackets v ps).length := by
          simp [videoPackets, List.filter_cons, hv]
        rw [if_pos hgo, ih _ n hc hpos hrest, hlen]


/-! ## The compositing pass: regions -/

theorem covers_regionA (d0 d1 w h x y : Nat) (h0 : 0 < d0) (h1 : 0 < d1) :
    covers (regionA d0 d1) w h x y ↔ x < d0 ∧ y < d1 := by
  simp only [covers, regionA]
  rw [sel_seq _ _ _ _ (by omega) (by omega), sel_seq _ _ _ _ (by omega) (by omega)]
  constructor
  · intro ⟨e1, e2⟩
    split_ifs at e1 e2 <;> first | omega | simp_all
  · intro ⟨e1, e2⟩
    rw [if_pos (by omega), if_pos (by omega)]
    simp

theorem covers_regionB (d0 d1 w h x y : Nat) (h0 : 0 < d0) (h1 : 0 < d1) :
    covers (regionB d0 d1) w h x y ↔ (d0 ≤ x ∧ x < 2 * d0) ∧ y < d1 := by
  simp only [covers, regionB]
  rw [sel_seq _ _ _ _ (by omega) (by omega), sel_seq _ _ _ _ (by omega) (by omega)]
  constructor
  · intro ⟨e1, e2⟩
    split_ifs at e1 e2 <;> first | omega | simp_all
  · intro ⟨e1, e2⟩
    rw [if_pos (by omega), if_pos (by omega)]
    simp

theorem covers_regionC (d0 d1 w h x y : Nat) (h0 : 0 < d0) (h1 : 0 < d1) :
    covers (regionC d0 d1) w h x y ↔ x < d0 ∧ (d1 ≤ y ∧ y < 2 * d1) := by
  simp only [covers, regionC]
  rw [sel_seq _ _ _ _ (by omega) (by omega), sel_seq _ _ _ _ (by omega) (by omega)]
  constructor
  · intro ⟨e1, e2⟩
    split_ifs at e1 e2 <;> first | omega | simp_all
  · intro ⟨e1, e2⟩
    rw [if_pos (by omega), if_pos (by omega)]
    simp

/-- Claim C2. For a frame of size `w x h` with `w, h ≥ 2` and every channel, Region B of the
composited output is Region A mirrored left-right: the output pixel at `(sw + x, y)` equals the
output pixel at `(sw - 1 - x, y)` for `x < sw`, `y < sh`. After all writes of the pass, those of
Region C included, Region A still holds `small` and Region B still holds `flip(small, 0)`. -/
theorem C2_regionB_mirrors_regionA (I : Interp) (w h : Nat) (data : List Nat) (_hw : 2 ≤ w)
    (_hh : 2 ≤ h) (x y c : Nat) (hx : x < scaledDim w) (hy : y < scaledDim h) (hc : c < 3) :
    pixel w (compositingPass I w h data) (scaledDim w + x) y c =
        pixel w (compositingPass I w h data) (scaledDim w - 1 - x) y c ∧
      pixel w (compositingPass I w h data) (scaledDim w - 1 - x) y c =
        (small I w h data).elem (scaledDim w - 1 - x) y c ∧
      pixel w (compositingPass I w h data) (scaledDim w + x) y c =
        (flip (small I w h data) 0).elem x y c := by
  have h1 := scaledDim_le w
  have h2 := scaledDim_le h
  have eB : pixel w (compositingPass I w h data) (scaledDim w + x) y c =
      (small I w h data).elem (scaledDim w - 1 - x) y c := by
    rw [pixel_compositingPass I w h data _ _ _ (by omega) (by omega) hc,
      composite_elem_B I w h data x y c hx hy hc]
  have eA : pixel w (compositingPass I w h data) (scaledDim w - 1 - x) y c =
      (small I w h data).elem (scaledDim w - 1 - x) y c := by
    rw [pixel_compositingPass I w h data _ _ _ (by omega) (by omega) hc,
      composite_elem_A I w h data _ y c (by omega) hy hc]
  have hd : (small I w h data).d0 = scaledDim w := by
    simpa [array.dims] using (small_dims I w h data (by omega) (by omega)).1
  refine ⟨by rw [eB, eA], eA, ?_⟩
  rw [eB]
  simp [flip, hd]

theorem C2_regionB_mirrors_regionA_witness :
    2 ≤ 4 ∧ 2 ≤ 4 ∧ 0 < scaledDim 4 ∧ 1 < scaledDim 4 ∧
      pixel 4 (compositingPass nearest 4 4 sampleFrame) (scaledDim 4 + 0) 1 2 =
        pixel 4 (compositingPass nearest 4 4 sampleFrame) (scaledDim 4 - 1 - 0) 1 2 :=
  have hs : scaledDim 4 = 2 := by rw [scaledDim_eq]; norm_num
  ⟨by decide, by decide, by rw [hs]; decide, by rw [hs]; decide,
    (C2_regionB_mirrors_regionA nearest 4 4 sampleFrame (by decide) (by decide) 0 1 2
      (by rw [hs]; decide) (by rw [hs]; decide) (by decide)).1⟩

/-- Claim C4. For a frame of size `w x h`, Region A of the composited output holds the
downscaled image unchanged: the output pixel at `(x, y)`, channel `c`, equals `small[x, y, c]`
for `x < sw`, `y < sh`, where `small` is computed from the frame before any region is written.
The three regions written are pairwise disjoint, so the writes of B and C do not touch A. -/
theorem C4_regionA_holds_small (I : Interp) (w h : Nat) (data : List Nat) (x y c : Nat)
    (hx : x < scaledDim w) (hy : y < scaledDim h) (hc : c < 3) :
    pixel w (compositingPass I w h data) x y c = (small I w h data).elem x y c ∧
      (small I w h data).elem x y c =
        (scale I (planar w h data) 0.5 0.5 (scaledDim w) (scaledDim h)).elem x y c ∧
      ∀ u v : Nat,
        ¬ (covers (regionA (scaledDim w) (scaledDim h)) w h u v ∧
            covers (regionB (scaledDim w) (scaledDim h)) w h u v) ∧
          ¬ (covers (regionA (scaledDim w) (scaledDim h)) w h u v ∧
            covers (regionC (scaledDim w) (scaledDim h)) w h u v) ∧
          ¬ (covers (regionB (scaledDim w) (scaledDim h)) w h u v ∧
            covers (regionC (scaledDim w) (scaledDim h)) w h u v) := by
  have h1 := scaledDim_le w
  have h2 := scaledDim_le h
  have p1 : 0 < scaledDim w := by omega
  have p2 : 0 < scaledDim h := by omega
  refine ⟨?_, rfl, ?_⟩
  · rw [pixel_compositingPass I w h data _ _ _ (by omega) (by omega) hc,
      composite_elem_A I w h data x y c hx hy hc]
  · intro u v
    rw [covers_regionA _ _ _ _ _ _ p1 p2, covers_regionB _ _ _ _ _ _ p1 p2,
      covers_regionC _ _ _ _ _ _ p1 p2]
    omega

theorem C4_regionA_holds_small_witness :
    1 < scaledDim 4 ∧ 0 < scaledDim 4 ∧
      pixel 4 (compositingPass nearest 4 4 sampleFrame) 1 0 2 =
        (small nearest 4 4 sampleFrame).elem 1 0 2 :=
  have hs : scaledDim 4 = 2 := by rw [scaledDim_eq]; norm_num
  ⟨by rw [hs]; decide, by rw [hs]; decide,
    (C4_regionA_holds_small nearest 4 4 sampleFrame 1 0 2 (by rw [hs]; decide)
      (by rw [hs]; decide) (by decide)).1⟩

/-- Claim C5. For a frame of size `w x h`, at least `2 x 2` (sizes that fit an `int`), a pixel
of the frame lies in none of the Regions A, B, C exactly when `x ≥ sw` and `y ≥ sh`, or
`x ≥ 2 * sw`, or `y ≥ 2 * sh`; the last two mean the last column `x = 2 * sw` and the last
row `y = 2 * sh` of an odd width or height. Every such pixel of the composited output equals
the pixel the buffer held at the same coordinates and channel before the pass. -/
theorem C5_outside_regions_unchanged (I : Interp) (w h : Nat) (data : List Nat) (x y c : Nat)
    (hw2 : 2 ≤ w) (hwmax : w < 2 ^ 31) (hh2 : 2 ≤ h) (hhmax : h < 2 ^ 31)
    (hx : x < w) (hy : y < h) (hc : c < 3) :
    ((¬ covers (regionA (scaledDim w) (scaledDim h)) w h x y ∧
          ¬ covers (regionB (scaledDim w) (scaledDim h)) w h x y ∧
          ¬ covers (regionC (scaledDim w) (scaledDim h)) w h x y) ↔
        ((scaledDim w ≤ x ∧ scaledDim h ≤ y) ∨ 2 * scaledDim w ≤ x ∨ 2 * scaledDim h ≤ y)) ∧
      (2 * scaledDim w ≤ x ↔ x = 2 * scaledDim w) ∧
      (2 * scaledDim h ≤ y ↔ y = 2 * scaledDim h) ∧
      (((scaledDim w ≤ x ∧ scaledDim h ≤ y) ∨ 2 * scaledDim w ≤ x ∨ 2 * scaledDim h ≤ y) →
        pixel w (compositingPass I w h data) x y c = pixel w data x y c) := by
  have p1 := scaledDim_pos w hw2 hwmax
  have p2 := scaledDim_pos h hh2 hhmax
  refine ⟨?_, ?_, ?_, ?_⟩
  · rw [covers_regionA _ _ _ _ _ _ p1 p2, covers_regionB _ _ _ _ _ _ p1 p2,
      covers_regionC _ _ _ _ _ _ p1 p2]
    omega
  · have e := scaledDim_eq w
    rw [Nat.mod_eq_of_lt (by omega)] at e
    omega
  · have e := scaledDim_eq h
    rw [Nat.mod_eq_of_lt (by omega)] at e
    omega
  · intro hout
    rw [pixel_compositingPass I w h data x y c hx hy hc,
      composite_elem_outside I w h data x y c p1 p2 hout, planar_elem]

theorem C5_outside_regions_unchanged_witness :
    2 ≤ 5 ∧ 5 < 2 ^ 31 ∧ 3 < 5 ∧ 4 < 5 ∧ 1 < 3 ∧ 2 * scaledDim 5 ≤ 4 ∧
      pixel 5 (compositingPass nearest 5 5 (flatFrame 5 5 9 8 7)) 3 4 1 =
        pixel 5 (flatFrame 5 5 9 8 7) 3 4 1 :=
  have hs : scaledDim 5 = 2 := by rw [scaledDim_eq]; norm_num
  ⟨by decide, by decide, by decide, by decide, by decide, by rw [hs],
    (C5_outside_regions_unchanged nearest 5 5 (flatFrame 5 5 9 8 7) 3 4 1 (by decide)
      (by decide) (by decide) (by decide) (by decide) (by decide) (by decide)).2.2.2
      (Or.inr (Or.inr (by rw [hs])))⟩

/-- Claim C10. The two reorderings of the pass are mutually inverse. For a buffer of `3 * w * h`
bytes viewed as an array of dims `(3, w, h)`, `reorder(., 1, 2, 0)` has dims `(w, h, 3)` and its
element `[x, y, c]` is the input element `[c, x, y]`; `reorder(., 2, 0, 1)` of that has dims
`(3, w, h)` and every element at its original index. A pixel written at planar position
`[x, y, c]` lands at byte offset `3 * (y * w + x) + c` of the output buffer, and with no region
write the output buffer is the input buffer. -/
theorem C10_reorder_roundtrip (w h : Nat) (data : List Nat) (hlen : data.length = 3 * w * h) :
    ((reorder (array.ofHost 3 w h data) 1 2 0).d0 = w ∧
        (reorder (array.ofHost 3 w h data) 1 2 0).d1 = h ∧
        (reorder (array.ofHost 3 w h data) 1 2 0).d2 = 3) ∧
      (∀ x y c : Nat,
        (reorder (array.ofHost 3 w h data) 1 2 0).elem x y c =
          (array.ofHost 3 w h data).elem c x y) ∧
      ((reorder (reorder (array.ofHost 3 w h data) 1 2 0) 2 0 1).d0 = 3 ∧
        (reorder (reorder (array.ofHost 3 w h data) 1 2 0) 2 0 1).d1 = w ∧
        (reorder (reorder (array.ofHost 3 w h data) 1 2 0) 2 0 1).d2 = h) ∧
      (∀ c x y : Nat,
        (reorder (reorder (array.ofHost 3 w h data) 1 2 0) 2 0 1).elem c x y =
          (array.ofHost 3 w h data).elem c x y) ∧
      (∀ p : array Nat, p.d0 = w → p.d1 = h → p.d2 = 3 →
        ∀ x y c : Nat, x < w → y < h → c < 3 →
          (reorder p 2 0 1).host.getD (3 * (y * w + x) + c) 0 = p.elem x y c) ∧
      (reorder (reorder (array.ofHost 3 w h data) 1 2 0) 2 0 1).host = data := by
  refine ⟨?_, ?_, ?_, ?_, ?_, ?_⟩
  · simp [reorder, array.dims, array.ofHost]
  · intro x y c
    simp [reorder]
  · simp [reorder, array.dims, array.ofHost]
  · intro c x y
    simp [reorder]
  · intro p h0 h1 h2 x y c hx hy hc
    exact pixel_host_reorder p w h h0 h1 h2 x y c hx hy hc
  · have e : reorder (reorder (array.ofHost 3 w h data) 1 2 0) 2 0 1 = array.ofHost 3 w h data := by
      simp [reorder, array.dims, array.ofHost]
    rw [e]
    exact host_ofHost 3 w h data hlen

theorem C10_reorder_roundtrip_witness :
    sampleFrame.length = 3 * 4 * 4 ∧
      (reorder (reorder (array.ofHost 3 4 4 sampleFrame) 1 2 0) 2 0 1).host = sampleFrame :=
  ⟨by decide, (C10_reorder_roundtrip 4 4 sampleFrame (by decide)).2.2.2.2.2⟩

/-! ## The edge image of a flat frame -/

theorem pixel_flatFrame (w h r g b x y c : Nat) (hx : x < w) (hy : y < h) (hc : c < 3) :
    pixel w (flatFrame w h r g b) x y c = if c = 0 then r else if c = 1 then g else b := by
  have hn : 3 * (y * w + x) + c < 3 * w * h := by
    have h1 : y * w + x < w * h := by
      calc y * w + x < y * w + w := by omega
        _ = w * (y + 1) := by ring
        _ ≤ w * h := Nat.mul_le_mul_left _ hy
    have h2 : 3 * w * h = 3 * (w * h) := by ring
    omega
  have hm : (3 * (y * w + x) + c) % 3 = c := by omega
  unfold pixel flatFrame
  rw [List.getD_eq_getElem _ _ (by simpa using hn)]
  simp only [List.getElem_map, List.getElem_range, hm]

/-- The greyscale plane of a flat frame is constant. -/
theorem greyscale_flat (I : Interp) (w h : Nat) (data : List Nat) (r g b : Nat)
    (hflat : ∀ x y, x < w → y < h →
      pixel w data x y 0 = r ∧ pixel w data x y 1 = g ∧ pixel w data x y 2 = b)
    (hI0 : ∀ x, x < scaledDim w → I.src0 x < w) (hI1 : ∀ y, y < scaledDim h → I.src1 y < h)
    (x y : Nat) (hx : x < scaledDim w) (hy : y < scaledDim h) :
    (greyscale I w h data).elem x y 0 = ((r : ℚ) + g + b) / 3 := by
  obtain ⟨e0, e1, e2⟩ := hflat (I.src0 x) (I.src1 y) (hI0 x hx) (hI1 y hy)
  simp only [greyscale, array.divScalar, array.add, array.plane, array.as_f32, small, scale,
    planar_elem, e0, e1, e2]

theorem zeroPadded_in (s : array ℚ) (a b : Int) (c : Nat) (ha : 0 ≤ a) (ha2 : a < s.d0)
    (hb : 0 ≤ b) (hb2 : b < s.d1) : zeroPadded s a b c = s.elem a.toNat b.toNat c := by
  unfold zeroPadded
  rw [if_pos ⟨ha, ha2, hb, hb2⟩]

theorem zeroPadded_out (s : array ℚ) (a b : Int) (c : Nat)
    (hout : a < 0 ∨ (s.d0 : Int) ≤ a ∨ b < 0 ∨ (s.d1 : Int) ≤ b) : zeroPadded s a b c = 0 := by
  unfold zeroPadded
  rw [if_neg (by omega)]

/-- The convolution with the edge kernel, written out: eight times the centre minus the eight
neighbours, each read with zero padding. -/
theorem convolve2_conv_kernel (s : array ℚ) (x y c : Nat) :
    (convolve2 s conv_kernel).elem x y c =
      8 * zeroPadded s x y c -
        (zeroPadded s ((x : Int) + 1) ((y : Int) + 1) c + zeroPadded s ((x : Int) + 1) y c +
          zeroPadded s ((x : Int) + 1) ((y : Int) - 1) c + zeroPadded s x ((y : Int) + 1) c +
          zeroPadded s x ((y : Int) - 1) c + zeroPadded s ((x : Int) - 1) ((y : Int) + 1) c +
          zeroPadded s ((x : Int) - 1) y c + zeroPadded s ((x : Int) - 1) ((y : Int) - 1) c) := by
  simp only [convolve2, conv_kernel, assignScalar, constant, index.sel, index.first,
    index.last, index.bound, Finset.sum_range_succ, Finset.sum_range_zero]
  norm_num
  have ex : (x : Int) + 1 - 2 = (x : Int) - 1 := by ring
  have ey : (y : Int) + 1 - 2 = (y : Int) - 1 := by ring
  rw [ex, ey]
  ring

theorem greyscale_dims (I : Interp) (w h : Nat) (data : List Nat) (hsw : 0 < scaledDim w)
    (hsh : 0 < scaledDim h) :
    (greyscale I w h data).d0 = scaledDim w ∧ (greyscale I w h data).d1 = scaledDim h := by
  have hn : ¬ (scaledDim w = 0 ∨ scaledDim h = 0) := by omega
  simp [greyscale, array.divScalar, array.add, array.plane, array.as_f32, small, scale, hn]

/-- The edge image of a constant plane is zero away from the border. -/
theorem convolve2_flat_interior (s : array ℚ) (v : ℚ)
    (hs : ∀ i j, i < s.d0 → j < s.d1 → s.elem i j 0 = v) (x y : Nat) (hx1 : 1 ≤ x)
    (hx2 : x + 1 < s.d0) (hy1 : 1 ≤ y) (hy2 : y + 1 < s.d1) :
    (convolve2 s conv_kernel).elem x y 0 = 0 := by
  have key : ∀ a b : Int, (x : Int) - 1 ≤ a → a ≤ (x : Int) + 1 → (y : Int) - 1 ≤ b →
      b ≤ (y : Int) + 1 → zeroPadded s a b 0 = v := by
    intro a b h1 h2 h3 h4
    rw [zeroPadded_in s a b 0 (by omega) (by omega) (by omega) (by omega)]
    exact hs _ _ (by omega) (by omega)
  rw [convolve2_conv_kernel, key _ _ (by omega) (by omega) (by omega) (by omega),
    key _ _ (by omega) (by omega) (by omega) (by omega),
    key _ _ (by omega) (by omega) (by omega) (by omega),
    key _ _ (by omega) (by omega) (by omega) (by omega),
    key _ _ (by omega) (by omega) (by omega) (by omega),
    key _ _ (by omega) (by omega) (by omega) (by omega),
    key _ _ (by omega) (by omega) (by omega) (by omega),
    key _ _ (by omega) (by omega) (by omega) (by omega),
    key _ _ (by omega) (by omega) (by omega) (by omega)]
  ring

/-- On the top row of a constant plane, between the corners, three of the eight neighbours
are padding: the edge image is three times the constant. -/
theorem convolve2_flat_top (s : array ℚ) (v : ℚ)
    (hs : ∀ i j, i < s.d0 → j < s.d1 → s.elem i j 0 = v) (x : Nat) (hx1 : 1 ≤ x)
    (hx2 : x + 1 < s.d0) (hy2 : 1 < s.d1) :
    (convolve2 s conv_kernel).elem x 0 0 = 3 * v := by
  have key : ∀ a b : Int, (x : Int) - 1 ≤ a → a ≤ (x : Int) + 1 → 0 ≤ b →
      b ≤ 1 → zeroPadded s a b 0 = v := by
    intro a b h1 h2 h3 h4
    rw [zeroPadded_in s a b 0 (by omega) (by omega) (by omega) (by omega)]
    exact hs _ _ (by omega) (by omega)
  have pad : ∀ a : Int, zeroPadded s a (((0 : Nat) : Int) - 1) 0 = 0 := by
    intro a
    exact zeroPadded_out s a _ 0 (by omega)
  rw [convolve2_conv_kernel, pad, pad, pad,
    key _ _ (by omega) (by omega) (by omega) (by omega),
    key _ _ (by omega) (by omega) (by omega) (by omega),
    key _ _ (by omega) (by omega) (by omega) (by omega),
    key _ _ (by omega) (by omega) (by omega) (by omega),
    key _ _ (by omega) (by omega) (by omega) (by omega),
    key _ _ (by omega) (by omega) (by omega) (by omega)]
  ring

theorem castU8_natCast (n : Nat) (hn : n < 256) : castU8 (n : ℚ) = n := by
  unfold castU8
  rw [if_pos (by positivity), Int.floor_natCast]
  omega

/-- Claim C3, refuted as stated. For the 64 x 64 pure red frame the pixel (1, 32) of the
output, on the top row of Region C, is (255, 255, 255) and not black: three of its eight
neighbours are zero padding, so the kernel answers 8 * 85 - 5 * 85 = 255. -/
theorem C3_counterexample :
    pixel 64 (compositingPass nearest 64 64 (flatFrame 64 64 255 0 0)) 1 32 0 = 255 ∧
      pixel 64 (compositingPass nearest 64 64 (flatFrame 64 64 255 0 0)) 1 32 1 = 255 ∧
      pixel 64 (compositingPass nearest 64 64 (flatFrame 64 64 255 0 0)) 1 32 2 = 255 := by
  have hs : scaledDim 64 = 32 := by rw [scaledDim_eq]; norm_num
  have hg : ∀ i j, i < (greyscale nearest 64 64 (flatFrame 64 64 255 0 0)).d0 →
      j < (greyscale nearest 64 64 (flatFrame 64 64 255 0 0)).d1 →
      (greyscale nearest 64 64 (flatFrame 64 64 255 0 0)).elem i j 0 = 85 := by
    intro i j hi hj
    obtain ⟨gd0, gd1⟩ := greyscale_dims nearest 64 64 (flatFrame 64 64 255 0 0)
      (by rw [hs]; decide) (by rw [hs]; decide)
    have hi2 : i < scaledDim 64 := by rw [gd0] at hi; exact hi
    have hj2 : j < scaledDim 64 := by rw [gd1] at hj; exact hj
    rw [greyscale_flat nearest 64 64 _ 255 0 0
      (fun x y hx hy => ⟨by rw [pixel_flatFrame _ _ _ _ _ _ _ _ hx hy (by decide)]; rfl,
        by rw [pixel_flatFrame _ _ _ _ _ _ _ _ hx hy (by decide)]; rfl,
        by rw [pixel_flatFrame _ _ _ _ _ _ _ _ hx hy (by decide)]; rfl⟩)
      (fun x hx => by simp only [nearest]; omega) (fun y hy => by simp only [nearest]; omega)
      i j hi2 hj2]
    norm_num
  have hv : castU8 ((grey nearest 64 64 (flatFrame 64 64 255 0 0)).elem 1 0 0) = 255 := by
    obtain ⟨gd0, gd1⟩ := greyscale_dims nearest 64 64 (flatFrame 64 64 255 0 0)
      (by rw [hs]; decide) (by rw [hs]; decide)
    have hd0 : (greyscale nearest 64 64 (flatFrame 64 64 255 0 0)).d0 = 32 := by rw [gd0, hs]
    have hd1 : (greyscale nearest 64 64 (flatFrame 64 64 255 0 0)).d1 = 32 := by rw [gd1, hs]
    rw [grey, convolve2_flat_top _ 85 hg 1 (by decide) (by rw [hd0]; decide)
      (by rw [hd1]; decide)]
    have e : (3 : ℚ) * 85 = ((255 : Nat) : ℚ) := by norm_num
    rw [e, castU8_natCast 255 (by decide)]
  have hp : ∀ c, c < 3 →
      pixel 64 (compositingPass nearest 64 64 (flatFrame 64 64 255 0 0)) 1 32 c = 255 := by
    intro c hc
    rw [pixel_compositingPass _ _ _ _ _ _ _ (by decide) (by decide) hc]
    have e := composite_elem_C nearest 64 64 (flatFrame 64 64 255 0 0) 1 0 c
      (by rw [hs]; decide) (by rw [hs]; decide) hc
    rw [hs] at e
    rw [e, hv]
  exact ⟨hp 0 (by decide), hp 1 (by decide), hp 2 (by decide)⟩

/-- Claim C3, amended. For a flat-coloured frame the greyscale plane of the downscaled image is
constant, and every pixel of Region C that is not on the border of the region (region
coordinates `1 ≤ x ≤ sw - 2`, `1 ≤ y ≤ sh - 2`) is black in all three channels: there the
kernel, whose weights sum to 0, reads only the constant plane. -/
theorem C3_flat_interior_black (I : Interp) (w h : Nat) (data : List Nat) (r g b : Nat)
    (hflat : ∀ x y, x < w → y < h →
      pixel w data x y 0 = r ∧ pixel w data x y 1 = g ∧ pixel w data x y 2 = b)
    (hI0 : ∀ x, x < scaledDim w → I.src0 x < w) (hI1 : ∀ y, y < scaledDim h → I.src1 y < h)
    (x y c : Nat) (hx1 : 1 ≤ x) (hx2 : x + 1 < scaledDim w) (hy1 : 1 ≤ y)
    (hy2 : y + 1 < scaledDim h) (hc : c < 3) :
    (∀ i j, i < scaledDim w → j < scaledDim h →
        (greyscale I w h data).elem i j 0 = ((r : ℚ) + g + b) / 3) ∧
      pixel w (compositingPass I w h data) x (scaledDim h + y) c = 0 := by
  have h1 := scaledDim_le w
  have h2 := scaledDim_le h
  have hg := greyscale_flat I w h data r g b hflat hI0 hI1
  obtain ⟨gd0, gd1⟩ := greyscale_dims I w h data (by omega) (by omega)
  refine ⟨hg, ?_⟩
  rw [pixel_compositingPass I w h data _ _ _ (by omega) (by omega) hc,
    composite_elem_C I w h data x y c (by omega) (by omega) hc, grey,
    convolve2_flat_interior _ _
      (fun i j hi hj => hg i j (by rw [gd0] at hi; exact hi) (by rw [gd1] at hj; exact hj))
      x y hx1 (by rw [gd0]; exact hx2) hy1 (by rw [gd1]; exact hy2)]
  have e : (0 : ℚ) = ((0 : Nat) : ℚ) := by norm_num
  rw [e, castU8_natCast 0 (by decide)]

theorem C3_flat_interior_black_witness :
    1 ≤ 1 ∧ 1 + 1 < scaledDim 8 ∧ 1 ≤ 2 ∧ 2 + 1 < scaledDim 8 ∧ 0 < 3 ∧
      pixel 8 (compositingPass nearest 8 8 (flatFrame 8 8 255 0 0)) 1 (scaledDim 8 + 2) 0 = 0 :=
  have hs : scaledDim 8 = 4 := by rw [scaledDim_eq]; norm_num
  ⟨by decide, by rw [hs]; decide, by decide, by rw [hs]; decide, by decide,
    (C3_flat_interior_black nearest 8 8 (flatFrame 8 8 255 0 0) 255 0 0
      (fun x y hx hy => ⟨by rw [pixel_flatFrame _ _ _ _ _ _ _ _ hx hy (by decide)]; rfl,
        by rw [pixel_flatFrame _ _ _ _ _ _ _ _ hx hy (by decide)]; rfl,
        by rw [pixel_flatFrame _ _ _ _ _ _ _ _ hx hy (by decide)]; rfl⟩)
      (fun x hx => by simp only [nearest]; omega) (fun y hy => by simp only [nearest]; omega)
      1 2 0 (by decide) (by rw [hs]; decide) (by decide) (by rw [hs]; decide) (by decide)).2⟩

/-! ## The size of the downscaled image -/

/-- The packets read are an initial part of the packets the container delivers. -/
theorem seen_initial (v : Int) (ps : List Packet) :
    ∀ s : Loop, ∃ t rest, (streaming v s ps).seen = s.seen ++ t ∧ t ++ rest = ps := by
  induction ps with
  | nil => intro s; exact ⟨[], [], by simp [streaming], rfl⟩
  | cons p ps ih =>
      intro s
      unfold streaming
      split_ifs
      · obtain ⟨t, rest, ht, hrest⟩ := ih (step v s p).1
        refine ⟨p :: t, rest, ?_, ?_⟩
        · rw [ht, step_seen]; simp
        · rw [List.cons_append, hrest]
      · refine ⟨[p], ps, ?_, rfl⟩
        rw [step_seen]

/-- When a stream that is not a video stream comes first, the logging of the first turn reads
`pCodecParameters->bit_rate` through a NULL pointer: the streaming loop is not reached and
`main` does not return. -/
theorem main_nonvideo_first (inp : Input) (s : Stream) (ss : List Stream)
    (h1 : inp.format_context = true) (h2 : inp.open_input = 0) (h3 : 0 ≤ inp.find_stream_info)
    (hs : inp.streams = s :: ss) (hd : s.decoder_found = true) (hv : s.is_video = false) :
    setup inp = none ∧ main inp = none := by
  have he : setupEnd inp = .crashed := by
    simp [setupEnd, h1, h2, h3, hs, findVideoStream, hd, hv]
  simp [setup, main, he]

theorem main_of_setup (inp : Input) (v : Int) (hsetup : setup inp = some v)
    (hd : inp.displayable = true) :
    run inp = some (streaming v Loop.init inp.packets) ∧ main inp = some 0 := by
  have hr : run inp = some (streaming v Loop.init inp.packets) := by
    simp [run, hsetup, hd]
  refine ⟨hr, ?_⟩
  unfold setup at hsetup
  unfold main
  cases he : setupEnd inp with
  | ok u => simp [hr]
  | failed => rw [he] at hsetup; simp at hsetup
  | crashed => rw [he] at hsetup; simp at hsetup

/-- Claim C6, the run on which the code departs from it. Every setup call succeeds, the first
video packet is rejected by the decoder, `decode_packet` returns the negative code, the loop
is left with that response, and `main` returns 0. -/
theorem C6_decode_failure_returns_zero :
    decode_packet invalidPacket = -1094995529 ∧
      setup (goodInput [invalidPacket]) = some 0 ∧
      (run (goodInput [invalidPacket])).map (fun s => s.response) = some (-1094995529) ∧
      main (goodInput [invalidPacket]) = some 0 := by
  have hs : setup (goodInput [invalidPacket]) = some 0 := by decide
  have hd : decode_packet invalidPacket = -1094995529 := by decide
  obtain ⟨hr, hm⟩ := main_of_setup _ 0 hs (by decide)
  refine ⟨hd, hs, ?_, hm⟩
  rw [hr]
  decide

/-- Claim C7, refuted as stated. One video packet for which the decoder yields no frame
(`EAGAIN`): `decode_packet` returns 0, the display pass runs and the counter goes from 800 to
799, although no decoded frame was displayed. -/
theorem C7_counterexample :
    againPacket.yieldsFrame = false ∧ decode_packet againPacket = 0 ∧
      (streaming 0 Loop.init [againPacket]).how_many_packets_to_process = 799 ∧
      (streaming 0 Loop.init [againPacket]).displayed = 1 ∧
      (streaming 0 Loop.init [againPacket]).shown = 0 := by
  decide

/-- Claim C7, amended. The counter, initially 800, is decremented once for every video packet
for which `decode_packet` returns 0, whether the decoder produced a frame for it or reported
`EAGAIN` or `EOF`, and by nothing else: after every run of the loop 800 minus the counter is
the number of such packets among the packets read, each turn changes the counter in this way
only, and a packet of another stream never decrements it. -/
theorem C7_counter_counts_video_packets (v : Int) (packets : List Packet) :
    (∃ rest, (streaming v Loop.init packets).seen ++ rest = packets) ∧
      800 - (streaming v Loop.init packets).how_many_packets_to_process =
        ((okVideo v (streaming v Loop.init packets).seen).length : Int) ∧
      (∀ (s : Loop) (p : Packet),
        (step v s p).1.how_many_packets_to_process =
          if p.stream_index = v ∧ decode_packet p = 0 then s.how_many_packets_to_process - 1
          else s.how_many_packets_to_process) ∧
      (∀ (s : Loop) (p : Packet), p.stream_index = v → 0 ≤ p.send →
        (p.receive = AVERROR_EAGAIN ∨ p.receive = AVERROR_EOF) →
        (step v s p).1.how_many_packets_to_process = s.how_many_packets_to_process - 1) ∧
      (∀ (s : Loop) (p : Packet), p.stream_index ≠ v →
        (step v s p).1.how_many_packets_to_process = s.how_many_packets_to_process) := by
  refine ⟨?_, ?_, ?_, ?_, ?_⟩
  · obtain ⟨t, rest, ht, hrest⟩ := seen_initial v packets Loop.init
    refine ⟨rest, ?_⟩
    rw [ht, ← hrest]
    simp [Loop.init]
  · exact (inv_streaming v packets Loop.init (inv_init v)).1
  · intro s p
    exact step_counter v s p
  · intro s p hv hsend hrecv
    have h0 : decode_packet p = 0 := by
      unfold decode_packet
      simp only []
      rw [if_neg (by omega), if_pos hrecv]
    rw [step_counter, if_pos ⟨hv, h0⟩]
  · intro s p hv
    rw [step_counter, if_neg (fun h => hv h.1)]

/-- Claim C8, refuted as stated. Two video packets decode without error and there is no quit
signal; the decoder produces a frame for the first and reports `EAGAIN` for the second. The
input holds one video frame, `main` returns 0, and the display pass has run twice. -/
theorem C8_counterexample :
    (∀ p ∈ [framePacket, againPacket], decode_packet p = 0 ∧ p.quit = false) ∧
      frame_count 0 [framePacket, againPacket] = 1 ∧
      main (goodInput [framePacket, againPacket]) = some 0 ∧
      (run (goodInput [framePacket, againPacket])).map (fun s => s.displayed) = some 2 ∧
      2 ≠ min 800 (frame_count 0 [framePacket, againPacket]) := by
  have hs : setup (goodInput [framePacket, againPacket]) = some 0 := by decide
  obtain ⟨hr, hm⟩ := main_of_setup _ 0 hs (by decide)
  refine ⟨by decide, by decide, hm, ?_, by decide⟩
  rw [hr]
  decide

/-- Claim C8, amended. For every input on which `main` reaches the streaming loop (every
checked setup call succeeds and the first stream is a video stream), with frames of at least
`2 x 2`, whose packets decode without error and with no quit signal, the loop ends and `main`
returns 0, and the loop has handled exactly `min(800, video_packet_count)` video packets: the
budget of 800 counts the packets of the video stream, whether or not the decoder yields a
frame for them. At most 800 display passes run. When the decoder yields a frame for every
video packet, `frame_count` is the number of video packets and exactly
`min(800, frame_count)` frames are displayed. -/
theorem C8_budget_counts_video_packets (inp : Input) (v : Int) (hsetup : setup inp = some v)
    (hsize : 2 ≤ inp.width ∧ 2 ≤ inp.height)
    (hok : ∀ p ∈ inp.packets, p.stream_index = v → decode_packet p = 0 ∧ p.quit = false) :
    main inp = some 0 ∧
      ∃ s : Loop, run inp = some s ∧
        (okVideo v s.seen).length = min 800 (videoPackets v inp.packets).length ∧
        s.how_many_packets_to_process =
          800 - ((min 800 (videoPackets v inp.packets).length : Nat) : Int) ∧
        s.displayed ≤ 800 ∧ s.shown ≤ s.displayed ∧
        ((∀ p ∈ inp.packets, p.stream_index = v → p.yieldsFrame = true) →
          frame_count v inp.packets = (videoPackets v inp.packets).length ∧
            s.displayed = min 800 (frame_count v inp.packets) ∧
            s.shown = min 800 (frame_count v inp.packets)) := by
  have hdisp : inp.displayable = true := by simp [Input.displayable, hsize]
  obtain ⟨hr, hm⟩ := main_of_setup inp v hsetup hdisp
  refine ⟨hm, streaming v Loop.init inp.packets, hr, ?_⟩
  obtain ⟨i1, i2, i3⟩ := inv_streaming v inp.packets Loop.init (inv_init v)
  have hb := budget_streaming v inp.packets Loop.init 800 rfl (by decide) hok
  have hlen : (okVideo v (streaming v Loop.init inp.packets).seen).length =
      min 800 (videoPackets v inp.packets).length := by
    rw [hb] at i1
    omega
  have hle : ((okVideo v (streaming v Loop.init inp.packets).seen).filter
      Packet.yieldsFrame).length ≤ (okVideo v (streaming v Loop.init inp.packets).seen).length :=
    List.length_filter_le _ _
  refine ⟨hlen, hb, by omega, by omega, ?_⟩
  intro hall
  have hfc : frame_count v inp.packets = (videoPackets v inp.packets).length := by
    unfold frame_count
    rw [List.filter_eq_self.2]
    intro p hp
    have hp2 := List.mem_filter.1 hp
    exact hall p hp2.1 (by simpa using hp2.2)
  have hfil : (okVideo v (streaming v Loop.init inp.packets).seen).filter Packet.yieldsFrame =
      okVideo v (streaming v Loop.init inp.packets).seen := by
    rw [List.filter_eq_self]
    intro p hp
    have hp2 := List.mem_filter.1 hp
    have hv : p.stream_index = v := by
      have := hp2.2
      simp only [decide_eq_true_eq] at this
      exact this.1
    rcases seen_streaming v inp.packets Loop.init p hp2.1 with h | h
    · simp [Loop.init] at h
    · exact hall p h hv
  refine ⟨hfc, ?_, ?_⟩
  · rw [i2, hlen, hfc]
  · rw [i3, hfil, hlen, hfc]

theorem C8_budget_counts_video_packets_witness :
    setup (goodInput [framePacket, audioPacket, framePacket]) = some 0 ∧
      (2 ≤ (goodInput [framePacket, audioPacket, framePacket]).width ∧
        2 ≤ (goodInput [framePacket, audioPacket, framePacket]).height) ∧
      (∀ p ∈ (goodInput [framePacket, audioPacket, framePacket]).packets,
        p.stream_index = 0 → decode_packet p = 0 ∧ p.quit = false) ∧
      main (goodInput [framePacket, audioPacket, framePacket]) = some 0 :=
  ⟨by decide, by decide, by decide,
    (C8_budget_counts_video_packets (goodInput [framePacket, audioPacket, framePacket]) 0
      (by decide) (by decide) (by decide)).1⟩

end FireMLT
